import Mathlib

/-!
# Verification of `glacier_check` core operations

Shallow embedding of `glacier_check/glacier_check.py` (inventory
reconciliation against a remote archive manifest).

Modelling conventions:
* A Python dict whose keys and values are strings is a `PyDict`, a list of
  key/value pairs built in assignment order; `dget` returns the value of the
  *last* pair with a given key, which is exactly the last-write-wins
  semantics of repeated dict assignment (and of a dict comprehension over a
  list with colliding keys).
* A JSON object for one archive record is itself such a dict
  (`ArchiveRecord`); `entry['K']` is `dget entry "K"`, where a missing key
  (Python `KeyError`) surfaces as `none`, and computations that can raise
  propagate through the `Option` monad.
* `datetime.now().strftime(...)` is modelled by a timestamp string parameter
  `now`; `calculate_tree_hash` on an opened file is modelled by a parameter
  `hashFile : String → String → Option String` (directory, filename) whose
  `none` models a propagated file-read failure.
* `json.load` inside `load_inventory`'s `try` is modelled by a parameter of
  type `Option Inventory`: `none` models `IOError`/`ValueError` (file
  missing, unreadable, or not valid JSON).
-/

/-- A Python string-valued dict: key/value pairs in assignment order. -/
abbrev PyDict := List (String × String)

/-- Python `d[k]`: the value of the last pair with key `k` (last write wins),
`none` when the key is absent (a `KeyError` in Python). -/
def dget : PyDict → String → Option String
  | [], _ => none
  | (k, v) :: rest, n =>
    match dget rest n with
    | some v' => some v'
    | none => if n = k then some v else none

/-- Python `k in d`: key membership in a dict. -/
def hasKey (d : PyDict) (k : String) : Bool :=
  (dget d k).isSome

/-- The set of keys of a dict (`d.keys()`), each key once.  Only the
membership and distinctness of the keys are modelled, not Python's
first-insertion iteration order. -/
def pykeys : PyDict → List String
  | [] => []
  | (k, _) :: rest =>
    let ks := pykeys rest
    if k ∈ ks then ks else k :: ks

/-- One archive record: the JSON object
`{ArchiveDescription: name, CreationDate: date, SHA256TreeHash: checksum}`,
kept as a raw dict so that records lacking expected keys are representable. -/
abbrev ArchiveRecord := PyDict

/-- An inventory: the JSON object `{ArchiveList: [record, ...]}`. -/
structure Inventory where
  archiveList : List ArchiveRecord
deriving DecidableEq

/-- Sequential effectful map over a list: runs left to right and aborts at
the first failure, like a Python loop in which an exception propagates. -/
def optMapM (g : α → Option β) : List α → Option (List β)
  | [] => some []
  | a :: as => do
    let b ← g a
    let bs ← optMapM g as
    pure (b :: bs)

/-- The body of the comprehension in `dictify_inventory`:
`entry['ArchiveDescription'] : entry['SHA256TreeHash']`, failing with
`KeyError` (`none`) when either key is absent. -/
def record_to_pair (entry : ArchiveRecord) : Option (String × String) := do
  let name ← dget entry "ArchiveDescription"
  let checksum ← dget entry "SHA256TreeHash"
  pure (name, checksum)

/-- `dictify_inventory`: the name→checksum projection
`{entry['ArchiveDescription']: entry['SHA256TreeHash'] for entry in inventory['ArchiveList']}`.
A record lacking either key makes the whole projection fail (`KeyError`). -/
def dictify_inventory (inventory : Inventory) : Option PyDict :=
  optMapM record_to_pair inventory.archiveList

/-- The empty inventory `{'ArchiveList': []}`. -/
def emptyInventory : Inventory := ⟨[]⟩

/-- `load_inventory`: returns the parsed file content, or the empty inventory
when reading/parsing raised `IOError`/`ValueError` (modelled by `none`). -/
def load_inventory (readResult : Option Inventory) : Inventory :=
  match readResult with
  | some data => data
  | none => emptyInventory

/-- The record dict appended for one filename in `update_local_inventory`. -/
def mk_archive_entry (f now checksum : String) : ArchiveRecord :=
  [("ArchiveDescription", f), ("CreationDate", now), ("SHA256TreeHash", checksum)]

/-- The body of the `for f in local_filenames` loop of
`update_local_inventory`: reuse the cached checksum when `f` is a key of the
old projection, hash the file otherwise, then build the record appended to
`archive_list`. -/
def update_entry (hashFile : String → String → Option String)
    (now local_dir : String) (old_dict : PyDict) (f : String) :
    Option ArchiveRecord := do
  let checksum ←
    match dget old_dict f with
    | some c => pure c
    | none => hashFile local_dir f
  pure (mk_archive_entry f now checksum)

/-- `update_local_inventory`: projects the old inventory, then for each
filename reuses the cached checksum when the name is a key of the projection
and otherwise hashes the file, recording a record with the run's timestamp.
Each iteration stamps `datetime.now()`; the model uses the single run
timestamp `now`, since no claim depends on the stamps differing. -/
def update_local_inventory (hashFile : String → String → Option String)
    (now : String) (local_dir : String) (local_filenames : List String)
    (old_local_inventory : Inventory) : Option Inventory := do
  let old_local_inventory_dict ← dictify_inventory old_local_inventory
  let archive_list ← optMapM
    (update_entry hashFile now local_dir old_local_inventory_dict)
    local_filenames
  pure ⟨archive_list⟩

/-- `check_missing_files`: names that are keys of the `against` projection
but not of the `from` projection. -/
def check_missing_files (from_inventory against_inventory : Inventory) :
    Option (List String) := do
  let from_inventory_dict ← dictify_inventory from_inventory
  let against_inventory_dict ← dictify_inventory against_inventory
  pure ((pykeys against_inventory_dict).filter
    (fun k => !(hasKey from_inventory_dict k)))

/-- `check_mismatched_files`: names in the intersection of the two key sets
whose checksums differ (`local_dict[k] != remote_dict[k]`). -/
def check_mismatched_files (local_inventory remote_inventory : Inventory) :
    Option (List String) := do
  let local_inventory_dict ← dictify_inventory local_inventory
  let remote_inventory_dict ← dictify_inventory remote_inventory
  let intersect := (pykeys local_inventory_dict).filter
    (fun k => hasKey remote_inventory_dict k)
  pure (intersect.filter
    (fun k => dget local_inventory_dict k != dget remote_inventory_dict k))

/-- A JSON value appearing in a check receipt: a string or a list of names. -/
inductive JVal where
  | str : String → JVal
  | arr : List String → JVal
deriving DecidableEq

/-- Python `r[k]` on the receipt dict (its keys are distinct literals). -/
def jget : List (String × JVal) → String → Option JVal
  | [], _ => none
  | (k, v) :: rest, n =>
    match jget rest n with
    | some v' => some v'
    | none => if n = k then some v else none

/-- `generate_check_receipt`: assembles the receipt dict.  `os.path.abspath`
and `datetime.now().strftime(...)` are modelled by the parameters `abspath`
and `now`. -/
def generate_check_receipt (abspath : String → String) (now : String)
    (local_dir : String) (missing_local_files missing_remote_files
    mismatched_files : List String) : List (String × JVal) :=
  [("local_dir", JVal.str (abspath local_dir)),
   ("missing_local_files", JVal.arr missing_local_files),
   ("missing_remote_files", JVal.arr missing_remote_files),
   ("mismatched_files", JVal.arr mismatched_files),
   ("timestamp", JVal.str now)]

/-- The last element of a list satisfying `p`, mirroring how a later dict
assignment shadows an earlier one. -/
def findLast (p : α → Bool) : List α → Option α
  | [] => none
  | a :: as =>
    match findLast p as with
    | some b => some b
    | none => if p a then some a else none

/-! ## Helper lemmas about `optMapM` -/

theorem optMapM_cons (g : α → Option β) (a : α) (as : List α) (r : List β)
    (h : optMapM g (a :: as) = some r) :
    ∃ b bs, g a = some b ∧ optMapM g as = some bs ∧ r = b :: bs := by
  cases hga : g a with
  | none => simp [optMapM, hga] at h
  | some b =>
    cases hgas : optMapM g as with
    | none => simp [optMapM, hga, hgas] at h
    | some bs =>
      simp [optMapM, hga, hgas] at h
      exact ⟨b, bs, rfl, rfl, h.symm⟩

theorem optMapM_length (g : α → Option β) (l : List α) (r : List β)
    (h : optMapM g l = some r) : r.length = l.length := by
  induction l generalizing r with
  | nil =>
    simp only [optMapM, Option.some.injEq] at h
    simp [← h]
  | cons a as ih =>
    obtain ⟨b, bs, _, hgas, rfl⟩ := optMapM_cons g a as r h
    simp [ih bs hgas]

theorem optMapM_getD (g : α → Option β) (da : α) (db : β) (l : List α)
    (r : List β) (i : ℕ) (h : optMapM g l = some r) (hi : i < l.length) :
    g (l.getD i da) = some (r.getD i db) := by
  induction l generalizing r i with
  | nil => simp at hi
  | cons a as ih =>
    obtain ⟨b, bs, hga, hgas, rfl⟩ := optMapM_cons g a as r h
    cases i with
    | zero => simpa using hga
    | succ n =>
      simp only [List.getD_cons_succ]
      exact ih bs n hgas (by simpa using hi)

theorem optMapM_mem (g : α → Option β) (l : List α) (r : List β) (b : β)
    (h : optMapM g l = some r) (hb : b ∈ r) : ∃ a ∈ l, g a = some b := by
  induction l generalizing r with
  | nil =>
    simp only [optMapM, Option.some.injEq] at h
    simp [← h] at hb
  | cons a as ih =>
    obtain ⟨b', bs, hga, hgas, rfl⟩ := optMapM_cons g a as r h
    rcases List.mem_cons.mp hb with hb' | hb'
    · exact ⟨a, List.mem_cons_self a as, by rw [hb']; exact hga⟩
    · obtain ⟨a', ha', hga'⟩ := ih bs hgas hb'
      exact ⟨a', List.mem_cons_of_mem a ha', hga'⟩

theorem optMapM_none (g : α → Option β) (l : List α) (a : α)
    (ha : a ∈ l) (hga : g a = none) : optMapM g l = none := by
  induction l with
  | nil => simp at ha
  | cons x xs ih =>
    rcases List.mem_cons.mp ha with rfl | ha'
    · simp [optMapM, hga]
    · cases hgx : g x with
      | none => simp [optMapM, hgx]
      | some b => simp [optMapM, hgx, ih ha']

theorem optMapM_isSome (g : α → Option β) (l : List α) (r : List β)
    (h : optMapM g l = some r) (a : α) (ha : a ∈ l) : (g a).isSome := by
  cases hga : g a with
  | some b => rfl
  | none => simp [optMapM_none g l a ha hga] at h

/-! ## Helper lemmas about dicts, keys and records -/

theorem dget_isSome (d : PyDict) (k : String) :
    (dget d k).isSome ↔ ∃ v, (k, v) ∈ d := by
  induction d with
  | nil => simp [dget]
  | cons p rest ih =>
    obtain ⟨k', v'⟩ := p
    simp only [dget, List.mem_cons, Prod.mk.injEq]
    cases hdr : dget rest k with
    | some w =>
      simp only [Option.isSome_some, true_iff]
      obtain ⟨v, hv⟩ := ih.mp (by simp [hdr])
      exact ⟨v, Or.inr hv⟩
    | none =>
      rw [hdr] at ih
      by_cases hk : k = k'
      · subst hk
        simp
      · rw [if_neg hk]
        constructor
        · intro h
          simp at h
        · rintro ⟨v, ⟨hkk, _⟩ | hv'⟩
          · exact absurd hkk hk
          · exact ih.mpr ⟨v, hv'⟩

theorem mem_pykeys (d : PyDict) (k : String) :
    k ∈ pykeys d ↔ ∃ v, (k, v) ∈ d := by
  induction d with
  | nil => simp [pykeys]
  | cons p rest ih =>
    obtain ⟨k', v'⟩ := p
    simp only [pykeys, List.mem_cons, Prod.mk.injEq]
    by_cases hmem : k' ∈ pykeys rest
    · rw [if_pos hmem, ih]
      constructor
      · rintro ⟨v, hv⟩
        exact ⟨v, Or.inr hv⟩
      · rintro ⟨v, ⟨rfl, _⟩ | hv'⟩
        · exact ih.mp hmem
        · exact ⟨v, hv'⟩
    · rw [if_neg hmem, List.mem_cons, ih]
      constructor
      · rintro (rfl | ⟨v, hv⟩)
        · exact ⟨v', Or.inl ⟨rfl, rfl⟩⟩
        · exact ⟨v, Or.inr hv⟩
      · rintro ⟨v, ⟨rfl, _⟩ | hv'⟩
        · exact Or.inl rfl
        · exact Or.inr ⟨v, hv'⟩

theorem mem_pykeys_iff_isSome (d : PyDict) (k : String) :
    k ∈ pykeys d ↔ (dget d k).isSome := by
  rw [mem_pykeys, dget_isSome]

theorem pykeys_nodup (d : PyDict) : (pykeys d).Nodup := by
  induction d with
  | nil => simp [pykeys]
  | cons p rest ih =>
    obtain ⟨k, v⟩ := p
    simp only [pykeys]
    by_cases h : k ∈ pykeys rest
    · simpa [h] using ih
    · simp [h, List.nodup_cons, ih]

theorem record_to_pair_inv (e : ArchiveRecord) (p : String × String)
    (h : record_to_pair e = some p) :
    dget e "ArchiveDescription" = some p.1 ∧
      dget e "SHA256TreeHash" = some p.2 := by
  cases hn : dget e "ArchiveDescription" with
  | none => simp [record_to_pair, hn] at h
  | some a =>
    cases hc : dget e "SHA256TreeHash" with
    | none => simp [record_to_pair, hn, hc] at h
    | some c =>
      simp [record_to_pair, hn, hc] at h
      rw [← h]
      exact ⟨rfl, rfl⟩

theorem record_to_pair_eq_none (e : ArchiveRecord)
    (h : dget e "ArchiveDescription" = none ∨ dget e "SHA256TreeHash" = none) :
    record_to_pair e = none := by
  rcases h with h | h
  · simp [record_to_pair, h]
  · cases hn : dget e "ArchiveDescription" with
    | none => simp [record_to_pair, hn]
    | some a => simp [record_to_pair, hn, h]

theorem findLast_mem (p : α → Bool) (l : List α) (b : α)
    (h : findLast p l = some b) : b ∈ l := by
  induction l with
  | nil => simp [findLast] at h
  | cons a as ih =>
    simp only [findLast] at h
    cases hfl : findLast p as with
    | some c =>
      rw [hfl] at h
      have h' : some c = some b := h
      exact List.mem_cons_of_mem _ (ih (hfl.trans h'))
    | none =>
      rw [hfl] at h
      have h' : (if p a then some a else none) = some b := h
      by_cases hp : p a
      · rw [if_pos hp] at h'
        rw [← Option.some.inj h']
        exact List.mem_cons_self a as
      · rw [if_neg hp] at h'
        exact absurd h' (by simp)

theorem dget_dictify (l : List ArchiveRecord) (d : PyDict) (n : String)
    (h : optMapM record_to_pair l = some d) :
    dget d n =
      (findLast (fun e => dget e "ArchiveDescription" == some n) l).bind
        (fun e => dget e "SHA256TreeHash") := by
  induction l generalizing d with
  | nil =>
    simp only [optMapM, Option.some.injEq] at h
    simp [← h, dget, findLast]
  | cons e es ih =>
    obtain ⟨p, ds, hge, hges, rfl⟩ := optMapM_cons _ e es d h
    obtain ⟨pn, pc⟩ := p
    obtain ⟨hn, hc⟩ := record_to_pair_inv e (pn, pc) hge
    have hn' : dget e "ArchiveDescription" = some pn := hn
    have hc' : dget e "SHA256TreeHash" = some pc := hc
    simp only [dget, findLast]
    rw [ih ds hges]
    cases hfl : findLast (fun e => dget e "ArchiveDescription" == some n) es with
    | some b =>
      have hb : b ∈ es := findLast_mem _ es b hfl
      have hbs := optMapM_isSome record_to_pair es ds hges b hb
      obtain ⟨q, hq⟩ := Option.isSome_iff_exists.mp hbs
      obtain ⟨hbn, hbc⟩ := record_to_pair_inv b q hq
      simp [hbc]
    | none =>
      simp only [Option.none_bind, hn']
      by_cases hpn : n = pn
      · subst hpn
        simp [hc']
      · simp [hpn, Ne.symm hpn]

/-- `check_missing_files` unfolded on successfully projected inventories. -/
theorem check_missing_files_eq (A B : Inventory) (fd ad : PyDict)
    (hA : dictify_inventory A = some fd) (hB : dictify_inventory B = some ad) :
    check_missing_files A B =
      some ((pykeys ad).filter (fun k => !(hasKey fd k))) := by
  simp [check_missing_files, hA, hB]

/-- `check_mismatched_files` unfolded on successfully projected inventories. -/
theorem check_mismatched_files_eq (A B : Inventory) (ad bd : PyDict)
    (hA : dictify_inventory A = some ad) (hB : dictify_inventory B = some bd) :
    check_mismatched_files A B =
      some (((pykeys ad).filter (fun k => hasKey bd k)).filter
        (fun k => dget ad k != dget bd k)) := by
  simp [check_mismatched_files, hA, hB]

theorem mem_missing_iff (fd ad : PyDict) (k : String) :
    k ∈ (pykeys ad).filter (fun j => !(hasKey fd j)) ↔
      ((dget ad k).isSome ∧ dget fd k = none) := by
  simp [List.mem_filter, mem_pykeys_iff_isSome, hasKey,
    Option.not_isSome_iff_eq_none]

theorem mem_mismatched_iff (ad bd : PyDict) (k : String) :
    k ∈ ((pykeys ad).filter (fun j => hasKey bd j)).filter
        (fun j => dget ad j != dget bd j) ↔
      ((dget ad k).isSome ∧ (dget bd k).isSome ∧ dget ad k ≠ dget bd k) := by
  simp only [List.mem_filter, mem_pykeys_iff_isSome, hasKey, bne_iff_ne,
    Bool.and_eq_true, decide_eq_true_eq, ne_eq]
  tauto

/-! ## Field lookups on freshly built records -/

theorem dget_mk_entry_name (f now c : String) :
    dget (mk_archive_entry f now c) "ArchiveDescription" = some f := rfl

theorem dget_mk_entry_date (f now c : String) :
    dget (mk_archive_entry f now c) "CreationDate" = some now := rfl

theorem dget_mk_entry_checksum (f now c : String) :
    dget (mk_archive_entry f now c) "SHA256TreeHash" = some c := rfl

theorem update_entry_inv (hashFile : String → String → Option String)
    (now local_dir : String) (old_dict : PyDict) (f : String)
    (e : ArchiveRecord)
    (h : update_entry hashFile now local_dir old_dict f = some e) :
    ∃ c, e = mk_archive_entry f now c ∧
      (match dget old_dict f with
       | some c' => some c'
       | none => hashFile local_dir f) = some c := by
  cases hd : dget old_dict f with
  | some c' =>
    simp only [update_entry, hd, Option.some_bind] at h
    have h' : some (mk_archive_entry f now c') = some e := h
    exact ⟨c', (Option.some.inj h').symm, rfl⟩
  | none =>
    cases hh : hashFile local_dir f with
    | none =>
      have h0 : update_entry hashFile now local_dir old_dict f = none := by
        simp [update_entry, hd, hh]
      rw [h0] at h
      exact absurd h (by simp)
    | some c' =>
      have h' : some (mk_archive_entry f now c') = some e := by
        rw [← h]
        simp [update_entry, hd, hh]
      exact ⟨c', (Option.some.inj h').symm, rfl⟩

/-! ## Concrete inventories used by witnesses and counterexamples -/

/-- A well-formed record with the given name and checksum. -/
def sampleRecord (n c : String) : ArchiveRecord :=
  [("ArchiveDescription", n), ("CreationDate", "2020-01-01 00:00:00"),
   ("SHA256TreeHash", c)]

/-- The inventory whose records carry the given name/checksum pairs. -/
def invOf (l : List (String × String)) : Inventory :=
  ⟨l.map (fun p => sampleRecord p.1 p.2)⟩

def invA1 : Inventory := invOf [("a.txt", "H1")]

def invA9 : Inventory := invOf [("a.txt", "H9")]

def invAB : Inventory := invOf [("a.txt", "H1"), ("b.txt", "H2")]

def invAC : Inventory := invOf [("a.txt", "H1"), ("c.txt", "H3")]

/-- An inventory with two records sharing one name (duplicate key). -/
def invDup : Inventory := invOf [("a.txt", "H1"), ("a.txt", "H2")]

/-- An inventory with a record lacking both expected keys. -/
def invBad : Inventory := ⟨[[("CreationDate", "x")]]⟩

/-- A tree-hash oracle that assigns every file the checksum `"HNEW"`. -/
def sampleHash : String → String → Option String := fun _ _ => some "HNEW"

/-- The inventory produced by updating `invA1` with files `a.txt`, `b.txt`
under `sampleHash` at timestamp `"T"`. -/
def updSample : Inventory :=
  ⟨[mk_archive_entry "a.txt" "T" "H1", mk_archive_entry "b.txt" "T" "HNEW"]⟩

/-! ## Claims -/

/-- C5: in an inventory whose record list contains several records with the
same name, the projection maps that name to the checksum of the *last* such
record in list order (later entries silently shadow earlier ones), and
duplicate names raise no error — the projection still succeeds, as the
concrete duplicate-name witness shows. -/
theorem dictify_inventory_last_write_wins (inv : Inventory) (d : PyDict)
    (n : String) (h : dictify_inventory inv = some d) :
    dget d n =
      (findLast (fun e => dget e "ArchiveDescription" == some n)
        inv.archiveList).bind (fun e => dget e "SHA256TreeHash") :=
  dget_dictify inv.archiveList d n h

theorem dictify_inventory_last_write_wins_witness :
    dictify_inventory invDup = some [("a.txt", "H1"), ("a.txt", "H2")] ∧
    dget [("a.txt", "H1"), ("a.txt", "H2")] "a.txt" = some "H2" ∧
    dget [("a.txt", "H1"), ("a.txt", "H2")] "a.txt" =
      (findLast (fun e => dget e "ArchiveDescription" == some "a.txt")
        invDup.archiveList).bind (fun e => dget e "SHA256TreeHash") :=
  ⟨rfl, rfl, dictify_inventory_last_write_wins invDup
    [("a.txt", "H1"), ("a.txt", "H2")] "a.txt" rfl⟩

/-- C6: a failed inventory load (file missing, unreadable, or invalid JSON,
all modelled by the read result `none`) raises no error and yields the empty
inventory `{'ArchiveList': []}`; a successful load returns the parsed data
unchanged. -/
theorem load_inventory_spec (d : Inventory) :
    load_inventory none = emptyInventory ∧
    (load_inventory none).archiveList = [] ∧
    load_inventory (some d) = d :=
  ⟨rfl, rfl, rfl⟩

/-- C7: an inventory containing a record that lacks the name key or the
checksum key fails (fatally, i.e. with a propagated `KeyError` modelled by
`none`) when projected, and consequently `check_missing_files` and
`check_mismatched_files` fail on it in either argument position. -/
theorem dictify_inventory_malformed_record_fatal (inv other : Inventory)
    (e : ArchiveRecord) (he : e ∈ inv.archiveList)
    (hbad : dget e "ArchiveDescription" = none ∨
      dget e "SHA256TreeHash" = none) :
    dictify_inventory inv = none ∧
    check_missing_files inv other = none ∧
    check_missing_files other inv = none ∧
    check_mismatched_files inv other = none ∧
    check_mismatched_files other inv = none := by
  have hnone : dictify_inventory inv = none :=
    optMapM_none record_to_pair inv.archiveList e he
      (record_to_pair_eq_none e hbad)
  refine ⟨hnone, ?_, ?_, ?_, ?_⟩
  · simp [check_missing_files, hnone]
  · cases ho : dictify_inventory other with
    | none => simp [check_missing_files, ho]
    | some od => simp [check_missing_files, ho, hnone]
  · simp [check_mismatched_files, hnone]
  · cases ho : dictify_inventory other with
    | none => simp [check_mismatched_files, ho]
    | some od => simp [check_mismatched_files, ho, hnone]

theorem dictify_inventory_malformed_record_fatal_witness :
    (([("CreationDate", "x")] : ArchiveRecord) ∈ invBad.archiveList) ∧
    dget ([("CreationDate", "x")] : ArchiveRecord) "ArchiveDescription"
      = none ∧
    dictify_inventory invBad = none ∧
    check_missing_files invA1 invBad = none :=
  ⟨by decide, rfl,
    (dictify_inventory_malformed_record_fatal invBad invA1
      [("CreationDate", "x")] (by decide) (Or.inl rfl)).1,
    (dictify_inventory_malformed_record_fatal invBad invA1
      [("CreationDate", "x")] (by decide) (Or.inl rfl)).2.2.1⟩

/-- C4 counterexample: the receipt built by `generate_check_receipt` has no
field named `directory` (its fields are `local_dir`, `missing_local_files`,
`missing_remote_files`, `mismatched_files`, `timestamp`), so the claimed
field set {directory, missing_local, missing_remote, mismatched, timestamp}
is not the record's schema. -/
theorem generate_check_receipt_schema_counterexample :
    ("directory" ∉
      (generate_check_receipt (fun s => s) "2024-01-01 00:00:00" "d"
        [] [] []).map Prod.fst) ∧
    (generate_check_receipt (fun s => s) "2024-01-01 00:00:00" "d"
        [] [] []).map Prod.fst ≠
      ["directory", "missing_local", "missing_remote", "mismatched",
        "timestamp"] := by
  decide

/-- C4 (amended): for every directory path and triple of reconciliation
result sets, the receipt has exactly the fields `local_dir`,
`missing_local_files`, `missing_remote_files`, `mismatched_files` and
`timestamp`, where `local_dir` holds the canonicalized absolute path of the
working directory, the three sets are passed through unchanged, and
`timestamp` holds the current time. -/
theorem generate_check_receipt_fields (abspath : String → String)
    (now local_dir : String) (ml mr mm : List String) :
    (generate_check_receipt abspath now local_dir ml mr mm).map Prod.fst =
      ["local_dir", "missing_local_files", "missing_remote_files",
        "mismatched_files", "timestamp"] ∧
    jget (generate_check_receipt abspath now local_dir ml mr mm) "local_dir"
      = some (JVal.str (abspath local_dir)) ∧
    jget (generate_check_receipt abspath now local_dir ml mr mm)
      "missing_local_files" = some (JVal.arr ml) ∧
    jget (generate_check_receipt abspath now local_dir ml mr mm)
      "missing_remote_files" = some (JVal.arr mr) ∧
    jget (generate_check_receipt abspath now local_dir ml mr mm)
      "mismatched_files" = some (JVal.arr mm) ∧
    jget (generate_check_receipt abspath now local_dir ml mr mm) "timestamp"
      = some (JVal.str now) :=
  ⟨rfl, rfl, rfl, rfl, rfl, rfl⟩

/-- C2: `check_missing_files from against` returns exactly the names that
are keys of the `against` projection but not of the `from` projection;
hence the result is empty iff every key of `against` is a key of `from`;
and the operation is asymmetric (swapping concrete arguments changes the
result). -/
theorem check_missing_files_spec (A B : Inventory) (fd ad : PyDict)
    (k : String) (r : List String)
    (hA : dictify_inventory A = some fd) (hB : dictify_inventory B = some ad)
    (hres : check_missing_files A B = some r) :
    (k ∈ r ↔ ((dget ad k).isSome ∧ dget fd k = none)) ∧
    (r = [] ↔ (pykeys ad).all (fun j => hasKey fd j) = true) ∧
    check_missing_files invA1 emptyInventory ≠
      check_missing_files emptyInventory invA1 := by
  rw [check_missing_files_eq A B fd ad hA hB] at hres
  obtain rfl := Option.some.inj hres
  refine ⟨mem_missing_iff fd ad k, ?_, by decide⟩
  rw [List.filter_eq_nil_iff, List.all_eq_true]
  constructor
  · intro h j hj
    have hh := h j hj
    cases hb : hasKey fd j with
    | true => rfl
    | false => exact absurd (by simp [hb]) hh
  · intro h j hj
    simp [h j hj]

theorem check_missing_files_spec_witness :
    dictify_inventory invA1 = some [("a.txt", "H1")] ∧
    dictify_inventory invAC = some [("a.txt", "H1"), ("c.txt", "H3")] ∧
    check_missing_files invA1 invAC = some ["c.txt"] ∧
    ("c.txt" ∈ (["c.txt"] : List String) ↔
      ((dget [("a.txt", "H1"), ("c.txt", "H3")] "c.txt").isSome ∧
        dget [("a.txt", "H1")] "c.txt" = none)) :=
  ⟨rfl, rfl, rfl,
    (check_missing_files_spec invA1 invAC [("a.txt", "H1")]
      [("a.txt", "H1"), ("c.txt", "H3")] "c.txt" ["c.txt"] rfl rfl rfl).1⟩

/-- C3: `check_mismatched_files local remote` returns exactly the names that
are keys of both projections and whose checksum strings differ under exact
string equality; a name absent from either projection is never in the
result, and equal checksums are never reported. -/
theorem check_mismatched_files_spec (lo re : Inventory) (ld rd : PyDict)
    (k : String) (r : List String)
    (hl : dictify_inventory lo = some ld)
    (hr : dictify_inventory re = some rd)
    (hres : check_mismatched_files lo re = some r) :
    k ∈ r ↔
      ((dget ld k).isSome ∧ (dget rd k).isSome ∧ dget ld k ≠ dget rd k) := by
  rw [check_mismatched_files_eq lo re ld rd hl hr] at hres
  obtain rfl := Option.some.inj hres
  exact mem_mismatched_iff ld rd k

theorem check_mismatched_files_spec_witness :
    dictify_inventory invA9 = some [("a.txt", "H9")] ∧
    dictify_inventory invA1 = some [("a.txt", "H1")] ∧
    check_mismatched_files invA9 invA1 = some ["a.txt"] ∧
    ("a.txt" ∈ (["a.txt"] : List String) ↔
      ((dget [("a.txt", "H9")] "a.txt").isSome ∧
        (dget [("a.txt", "H1")] "a.txt").isSome ∧
        dget [("a.txt", "H9")] "a.txt" ≠ dget [("a.txt", "H1")] "a.txt")) :=
  ⟨rfl, rfl, rfl,
    check_mismatched_files_spec invA9 invA1 [("a.txt", "H9")]
      [("a.txt", "H1")] "a.txt" ["a.txt"] rfl rfl rfl⟩

/-- C8: two inventories with identical (extensionally equal) name→checksum
projections reconcile cleanly: both missing checks and the mismatch check
return the empty list. -/
theorem reconcile_identical_projections (lo re : Inventory) (ld rd : PyDict)
    (hl : dictify_inventory lo = some ld)
    (hr : dictify_inventory re = some rd)
    (heq : ∀ k, dget ld k = dget rd k) :
    check_missing_files lo re = some [] ∧
    check_missing_files re lo = some [] ∧
    check_mismatched_files lo re = some [] := by
  refine ⟨?_, ?_, ?_⟩
  · rw [check_missing_files_eq lo re ld rd hl hr]
    congr 1
    rw [List.filter_eq_nil_iff]
    intro j hj
    rw [mem_pykeys_iff_isSome] at hj
    simp [hasKey, heq j, hj]
  · rw [check_missing_files_eq re lo rd ld hr hl]
    congr 1
    rw [List.filter_eq_nil_iff]
    intro j hj
    rw [mem_pykeys_iff_isSome] at hj
    simp [hasKey, ← heq j, hj]
  · rw [check_mismatched_files_eq lo re ld rd hl hr]
    congr 1
    rw [List.filter_eq_nil_iff]
    intro j hj
    simp [heq j]

theorem reconcile_identical_projections_witness :
    dictify_inventory invA1 = some [("a.txt", "H1")] ∧
    check_missing_files invA1 invA1 = some [] ∧
    check_mismatched_files invA1 invA1 = some [] :=
  ⟨rfl,
    (reconcile_identical_projections invA1 invA1 [("a.txt", "H1")]
      [("a.txt", "H1")] rfl rfl (fun _ => rfl)).1,
    (reconcile_identical_projections invA1 invA1 [("a.txt", "H1")]
      [("a.txt", "H1")] rfl rfl (fun _ => rfl)).2.2⟩

/-- C9: against an inventory with zero records, `check_missing_files`
returns every key of the other inventory's projection when the empty one is
the `from` side, the empty list when the empty one is the `against` side,
and `check_mismatched_files` returns the empty list. -/
theorem reconcile_empty_inventory (B : Inventory) (bd : PyDict)
    (hB : dictify_inventory B = some bd) :
    check_missing_files emptyInventory B = some (pykeys bd) ∧
    check_missing_files B emptyInventory = some [] ∧
    check_mismatched_files emptyInventory B = some [] := by
  have he : dictify_inventory emptyInventory = some [] := rfl
  refine ⟨?_, ?_, ?_⟩
  · rw [check_missing_files_eq emptyInventory B [] bd he hB]
    congr 1
    rw [List.filter_eq_self]
    intro j _
    simp [hasKey, dget]
  · rw [check_missing_files_eq B emptyInventory bd [] hB he]
    rfl
  · rw [check_mismatched_files_eq emptyInventory B [] bd he hB]
    rfl

theorem reconcile_empty_inventory_witness :
    dictify_inventory invAC = some [("a.txt", "H1"), ("c.txt", "H3")] ∧
    check_missing_files emptyInventory invAC = some ["a.txt", "c.txt"] ∧
    check_missing_files invAC emptyInventory = some [] ∧
    check_mismatched_files emptyInventory invAC = some [] :=
  ⟨rfl,
    (reconcile_empty_inventory invAC
      [("a.txt", "H1"), ("c.txt", "H3")] rfl).1,
    (reconcile_empty_inventory invAC
      [("a.txt", "H1"), ("c.txt", "H3")] rfl).2.1,
    (reconcile_empty_inventory invAC
      [("a.txt", "H1"), ("c.txt", "H3")] rfl).2.2⟩

/-- C10: `check_mismatched_files` is symmetric up to membership — the
results of the two argument orders contain exactly the same names — and the
returned list has no duplicate names. -/
theorem check_mismatched_files_symm (A B : Inventory) (ad bd : PyDict)
    (k : String) (r1 r2 : List String)
    (hA : dictify_inventory A = some ad) (hB : dictify_inventory B = some bd)
    (h1 : check_mismatched_files A B = some r1)
    (h2 : check_mismatched_files B A = some r2) :
    (k ∈ r1 ↔ k ∈ r2) ∧ r1.Nodup := by
  rw [check_mismatched_files_eq A B ad bd hA hB] at h1
  rw [check_mismatched_files_eq B A bd ad hB hA] at h2
  obtain rfl := Option.some.inj h1
  obtain rfl := Option.some.inj h2
  constructor
  · rw [mem_mismatched_iff, mem_mismatched_iff]
    constructor
    · rintro ⟨ha, hb, hne⟩
      exact ⟨hb, ha, Ne.symm hne⟩
    · rintro ⟨hb, ha, hne⟩
      exact ⟨ha, hb, Ne.symm hne⟩
  · exact ((pykeys_nodup ad).filter _).filter _

theorem check_mismatched_files_symm_witness :
    dictify_inventory invA9 = some [("a.txt", "H9")] ∧
    check_mismatched_files invA9 invA1 = some ["a.txt"] ∧
    check_mismatched_files invA1 invA9 = some ["a.txt"] ∧
    ("a.txt" ∈ (["a.txt"] : List String) ↔
      "a.txt" ∈ (["a.txt"] : List String)) ∧
    (["a.txt"] : List String).Nodup :=
  ⟨rfl, rfl, rfl,
    (check_mismatched_files_symm invA9 invA1 [("a.txt", "H9")]
      [("a.txt", "H1")] "a.txt" ["a.txt"] ["a.txt"] rfl rfl rfl rfl).1,
    (check_mismatched_files_symm invA9 invA1 [("a.txt", "H9")]
      [("a.txt", "H1")] "a.txt" ["a.txt"] ["a.txt"] rfl rfl rfl rfl).2⟩

/-- `update_local_inventory` unfolded on a successfully projected old
inventory. -/
theorem update_local_inventory_eq
    (hashFile : String → String → Option String) (now local_dir : String)
    (fs : List String) (old : Inventory) (oldD : PyDict)
    (hold : dictify_inventory old = some oldD) :
    update_local_inventory hashFile now local_dir fs old =
      Option.map Inventory.mk
        (optMapM (update_entry hashFile now local_dir oldD) fs) := by
  unfold update_local_inventory
  rw [hold]
  show (optMapM (update_entry hashFile now local_dir oldD) fs).bind
      (fun archive_list => some (Inventory.mk archive_list)) =
    Option.map Inventory.mk
      (optMapM (update_entry hashFile now local_dir oldD) fs)
  cases optMapM (update_entry hashFile now local_dir oldD) fs <;> rfl

/-- C1: the incremental updater yields a brand-new inventory with exactly
one record per input filename, in input order; the record for the `i`-th
filename carries that filename, the fresh run timestamp, and — when the
name is a key of the old projection — the cached checksum verbatim
(independently of the hash oracle, hence of current file content),
otherwise the freshly computed tree hash; and every record's name comes
from the input list, so dropped filenames persist in no record. -/
theorem update_local_inventory_incremental
    (hashFile : String → String → Option String) (now local_dir : String)
    (local_filenames : List String) (old : Inventory) (oldD : PyDict)
    (inv : Inventory) (i : ℕ)
    (hold : dictify_inventory old = some oldD)
    (hup : update_local_inventory hashFile now local_dir local_filenames old
      = some inv)
    (hi : i < local_filenames.length) :
    inv.archiveList.length = local_filenames.length ∧
    dget (inv.archiveList.getD i []) "ArchiveDescription"
      = some (local_filenames.getD i "") ∧
    dget (inv.archiveList.getD i []) "CreationDate" = some now ∧
    (dget (inv.archiveList.getD i []) "SHA256TreeHash"
      = match dget oldD (local_filenames.getD i "") with
        | some c' => some c'
        | none => hashFile local_dir (local_filenames.getD i "")) ∧
    inv.archiveList.all
      (fun e =>
        match dget e "ArchiveDescription" with
        | some m => local_filenames.contains m
        | none => true) = true := by
  rw [update_local_inventory_eq hashFile now local_dir local_filenames old
    oldD hold] at hup
  cases hal : optMapM (update_entry hashFile now local_dir oldD)
      local_filenames with
  | none =>
    rw [hal] at hup
    exact absurd hup (by simp)
  | some al =>
    rw [hal] at hup
    have hup' : some (Inventory.mk al) = some inv := hup
    obtain rfl := Option.some.inj hup'
    have hlen := optMapM_length _ _ _ hal
    have hentry := optMapM_getD
      (update_entry hashFile now local_dir oldD) "" [] local_filenames al i
      hal hi
    obtain ⟨c, hce, hcc⟩ := update_entry_inv hashFile now local_dir oldD
      (local_filenames.getD i "") (al.getD i []) hentry
    refine ⟨hlen, ?_, ?_, ?_, ?_⟩
    · show dget (al.getD i []) "ArchiveDescription"
        = some (local_filenames.getD i "")
      rw [hce]
      exact dget_mk_entry_name _ _ _
    · show dget (al.getD i []) "CreationDate" = some now
      rw [hce]
      exact dget_mk_entry_date _ _ _
    · show dget (al.getD i []) "SHA256TreeHash"
        = match dget oldD (local_filenames.getD i "") with
          | some c' => some c'
          | none => hashFile local_dir (local_filenames.getD i "")
      rw [hce, dget_mk_entry_checksum]
      exact hcc.symm
    · show al.all
        (fun e =>
          match dget e "ArchiveDescription" with
          | some m => local_filenames.contains m
          | none => true) = true
      rw [List.all_eq_true]
      intro e he
      obtain ⟨f, hf, hgf⟩ := optMapM_mem _ _ _ e hal he
      obtain ⟨c', hec, _⟩ :=
        update_entry_inv hashFile now local_dir oldD f e hgf
      subst hec
      simp only [dget_mk_entry_name]
      simpa using hf

theorem update_local_inventory_incremental_witness :
    dictify_inventory invA1 = some [("a.txt", "H1")] ∧
    update_local_inventory sampleHash "T" "dir" ["a.txt", "b.txt"] invA1
      = some updSample ∧
    (0 : ℕ) < (["a.txt", "b.txt"] : List String).length ∧
    updSample.archiveList.length
      = (["a.txt", "b.txt"] : List String).length ∧
    dget (updSample.archiveList.getD 0 []) "SHA256TreeHash" = some "H1" :=
  ⟨rfl, rfl, by decide,
    (update_local_inventory_incremental sampleHash "T" "dir"
      ["a.txt", "b.txt"] invA1 [("a.txt", "H1")] updSample 0 rfl rfl
      (by decide)).1,
    (update_local_inventory_incremental sampleHash "T" "dir"
      ["a.txt", "b.txt"] invA1 [("a.txt", "H1")] updSample 0 rfl rfl
      (by decide)).2.2.2.1⟩
